import Mathlib

/-
Verification of the daily usage-quota tracker of the moodle-gemini-search
browser extension (src/background.js).  The quota logic is embedded
shallowly: the JavaScript object holding per-model per-day counters becomes
an association list from string keys to natural numbers, the chrome storage
layer becomes explicit state passing with boolean fault flags for the get
and set operations (the code catches storage errors: a failed get yields the
empty record, a failed set is logged and swallowed), and the asynchronous
handler handleContentAnalysis becomes a function from the pre-call store to
a result and the post-call store.
-/

/-- One entry of MODEL_CONFIG in background.js: a named model with a daily
request quota and a requests-per-minute figure (the rpm field is carried but
never read by the quota logic). -/
structure Model where
  name : String
  displayName : String
  daily : Nat
  rpm : Nat
deriving DecidableEq

/-- The fixed model configuration from background.js lines 7 to 13. -/
def MODEL_CONFIG : List Model :=
  [ Model.mk "gemini-2.5-pro" "Gemini 2.5 Pro" 50 2,
    Model.mk "gemini-2.5-flash" "Gemini 2.5 Flash" 250 10,
    Model.mk "gemini-2.0-flash" "Gemini 2.0 Flash" 200 15,
    Model.mk "gemini-2.0-flash-lite" "Gemini 2.0 Flash Lite" 200 30,
    Model.mk "gemini-2.5-flash-lite" "Gemini 2.5 Flash Lite" 1000 15 ]

/-- The persisted modelUsage object: a string-keyed record of counters.
Modelled as an association list; a JavaScript object has at most one
property per key, which usageSet preserves. -/
abbrev Usage := List (String × Nat)

/-- Reading usage[k] with the `|| 0` default used throughout background.js:
an absent property reads as zero. -/
def usageGet : Usage → String → Nat
  | [], _ => 0
  | (k, v) :: rest, key => if k = key then v else usageGet rest key

/-- The JavaScript property assignment usage[k] = v: overwrite the existing
property or add a new one. -/
def usageSet : Usage → String → Nat → Usage
  | [], key, v => [(key, v)]
  | (k, w) :: rest, key, v =>
      if k = key then (key, v) :: rest else (k, w) :: usageSet rest key v

/-- Whether the record has an entry for the key at all (used to state the
lazy-creation behaviour: no entry means the count reads as zero). -/
def usageHasKey : Usage → String → Bool
  | [], _ => false
  | (k, _) :: rest, key => if k = key then true else usageHasKey rest key

/-- The composite storage key built in background.js lines 66 and 79:
the template literal modelName_today. -/
def modelKey (modelName today : String) : String :=
  modelName ++ "_" ++ today

/-- getModelUsage, background.js lines 44 to 52: read the persisted record;
on a storage error the catch block returns the empty object, so every
counter reads as zero.  The getOk flag is the fate of the storage get. -/
def getModelUsage (store : Usage) (getOk : Bool) : Usage :=
  if getOk then store else []

/-- saveModelUsage, background.js lines 54 to 61: persist the record; on a
storage error the catch block only logs, so the persisted state is left
unchanged and no error propagates.  The setOk flag is the fate of the
storage set. -/
def saveModelUsage (store : Usage) (usage : Usage) (setOk : Bool) : Usage :=
  if setOk then usage else store

/-- isModelAvailable, background.js lines 63 to 73: look the model name up
in MODEL_CONFIG (the configuration is passed explicitly here since the
source closes over the global constant), default the counter for the
modelName_today key to zero, and compare it strictly against the daily
quota. -/
def isModelAvailable (config : List Model) (modelName : String)
    (usage : Usage) (today : String) : Bool :=
  match config.find? (fun m => m.name = modelName) with
  | none => false
  | some m => usageGet usage (modelKey modelName today) < m.daily

/-- incrementModelUsage, background.js lines 75 to 83: re-read the record
from storage, bump the counter for the modelName_today key by one, and save
the record back.  The two fault flags are the fates of the inner get and of
the save. -/
def incrementModelUsage (store : Usage) (modelName today : String)
    (getOk setOk : Bool) : Usage :=
  saveModelUsage store
    (usageSet (getModelUsage store getOk) (modelKey modelName today)
      (usageGet (getModelUsage store getOk) (modelKey modelName today) + 1))
    setOk

/-- The distinguishable returns of handleContentAnalysis: the missing API
key error (line 100), the all-models-exhausted return (line 116), the
API-failure returns (lines 168 to 199 and the outer catch), and the success
return (lines 205 to 210) carrying the selected model name. -/
inductive AnalysisResult where
  | noApiKey
  | exhausted
  | apiError
  | success (model : String)
deriving DecidableEq

/-- The environment of one handleContentAnalysis call: whether an API key
is configured, whether the network call and response parsing succeed, the
fate of the usage read at line 104, the fate of the usage read inside
incrementModelUsage, and the fate of the save inside incrementModelUsage. -/
structure CallEnv where
  apiKeyOk : Bool
  apiOk : Bool
  getOk : Bool
  incGetOk : Bool
  setOk : Bool
deriving DecidableEq

/-- handleContentAnalysis, background.js lines 86 to 216, restricted to its
effect on the persisted usage record: bail out without an API key, read the
usage snapshot once, select the first configured model the snapshot shows
available, bail out if none, perform the API call, and on API success call
incrementModelUsage for the selected model before returning success. -/
def handleContentAnalysis (config : List Model) (today : String)
    (env : CallEnv) (store : Usage) : AnalysisResult × Usage :=
  if env.apiKeyOk then
    match config.find? (fun m =>
        isModelAvailable config m.name (getModelUsage store env.getOk) today) with
    | none => (AnalysisResult.exhausted, store)
    | some m =>
        if env.apiOk then
          (AnalysisResult.success m.name,
           incrementModelUsage store m.name today env.incGetOk env.setOk)
        else (AnalysisResult.apiError, store)
  else (AnalysisResult.noApiKey, store)

/-- A strictly sequential run: each call, with its own environment, runs to
completion on the store left by the previous call. -/
def runCalls (config : List Model) (today : String) :
    List CallEnv → Usage → List AnalysisResult × Usage
  | [], store => ([], store)
  | e :: rest, store =>
      ((handleContentAnalysis config today e store).1 ::
        (runCalls config today rest (handleContentAnalysis config today e store).2).1,
       (runCalls config today rest (handleContentAnalysis config today e store).2).2)

/-- The number of results in a list that report success for the given
model name. -/
def successCountFor (n : String) : List AnalysisResult → Nat
  | [] => 0
  | r :: rest =>
      (if r = AnalysisResult.success n then 1 else 0) + successCountFor n rest

/-- Reading back the key just written gives the written value. -/
lemma usageGet_usageSet_self (u : Usage) (k : String) (v : Nat) :
    usageGet (usageSet u k v) k = v := by
  induction u with
  | nil => simp [usageSet, usageGet]
  | cons hd tl ih =>
      obtain ⟨k2, w⟩ := hd
      by_cases hk : k2 = k <;> simp [usageSet, usageGet, hk, ih]

/-- Writing one key leaves every other key unchanged. -/
lemma usageGet_usageSet_ne (u : Usage) (k : String) (v : Nat) (k2 : String)
    (h : k ≠ k2) : usageGet (usageSet u k v) k2 = usageGet u k2 := by
  induction u with
  | nil => simp [usageSet, usageGet, h]
  | cons hd tl ih =>
      obtain ⟨k3, w⟩ := hd
      by_cases hk : k3 = k
      · subst hk
        simp [usageSet, usageGet, h]
      · simp [usageSet, usageGet, hk, ih]

/-- A key with no entry reads as zero. -/
lemma usageGet_eq_zero_of_not_hasKey (u : Usage) (k : String)
    (h : usageHasKey u k = false) : usageGet u k = 0 := by
  induction u with
  | nil => simp [usageGet]
  | cons hd tl ih =>
      obtain ⟨k2, w⟩ := hd
      by_cases hk : k2 = k
      · simp [usageHasKey, hk] at h
      · simp [usageHasKey, hk] at h
        simp [usageGet, hk, ih h]

/-- Appending the same string on the right is cancellable. -/
lemma string_append_cancel_right (a b c : String) (h : a ++ c = b ++ c) :
    a = b := by
  have h2 : a.data ++ c.data = b.data ++ c.data := by
    have h1 := congrArg String.data h
    simpa [String.data_append] using h1
  have h3 := List.append_cancel_right h2
  cases a
  cases b
  exact congrArg String.mk h3

/-- Within one day, distinct model names give distinct storage keys. -/
lemma modelKey_inj_name (n1 n2 d : String) (h : modelKey n1 d = modelKey n2 d) :
    n1 = n2 := by
  have h1 : (n1 ++ "_") ++ d = (n2 ++ "_") ++ d := by
    simpa [modelKey, String.append_assoc] using h
  have h2 := string_append_cancel_right (n1 ++ "_") (n2 ++ "_") d h1
  exact string_append_cancel_right n1 n2 "_" h2

/-- A model that heads the configuration resolves to itself in the by-name
lookup performed by isModelAvailable. -/
lemma find?_name_head (m : Model) (rest : List Model) :
    (m :: rest).find? (fun x => x.name = m.name) = some m := by
  simp [List.find?]

/-- The head of the configuration is selected whenever its counter for the
day is below its quota. -/
lemma find?_avail_head (m : Model) (rest : List Model) (u : Usage)
    (today : String) (h : usageGet u (modelKey m.name today) < m.daily) :
    (m :: rest).find? (fun x =>
        isModelAvailable (m :: rest) x.name u today) = some m := by
  have havail : isModelAvailable (m :: rest) m.name u today = true := by
    simp [isModelAvailable, find?_name_head, h]
  simp [List.find?, havail]

/-- Inversion of a successful call: success is returned exactly when a model
was selected from the snapshot and the API call succeeded, and then the new
store is the result of incrementModelUsage for the selected name. -/
lemma handle_success_inv (config : List Model) (today : String) (env : CallEnv)
    (s : Usage) (n : String)
    (h : (handleContentAnalysis config today env s).1 = AnalysisResult.success n) :
    ∃ sel, config.find? (fun m =>
        isModelAvailable config m.name (getModelUsage s env.getOk) today)
          = some sel
      ∧ sel.name = n ∧ env.apiKeyOk = true ∧ env.apiOk = true
      ∧ (handleContentAnalysis config today env s).2
          = incrementModelUsage s n today env.incGetOk env.setOk := by
  by_cases hk : env.apiKeyOk
  · rcases hsel : config.find? (fun m =>
        isModelAvailable config m.name (getModelUsage s env.getOk) today)
      with _ | sel
    · simp [handleContentAnalysis, hk, hsel] at h
    · by_cases hapi : env.apiOk
      · have hn : sel.name = n := by
          simpa [handleContentAnalysis, hk, hsel, hapi] using h
        exact ⟨sel, hsel, hn, by simpa using hk, by simpa using hapi,
          by simp [handleContentAnalysis, hk, hsel, hapi, hn]⟩
      · simp [handleContentAnalysis, hk, hsel, hapi] at h
  · simp [handleContentAnalysis, hk] at h

/-- How one call changes the counter of a given model m that resolves to
itself by name: the counter moves by one exactly when the call returns
success for m, and a success for m presupposes that the pre-call counter
was strictly below the quota.  Requires a fault-free store for the call. -/
lemma handle_step_key (config : List Model) (today : String) (env : CallEnv)
    (s : Usage) (m : Model)
    (hfind : config.find? (fun x => x.name = m.name) = some m)
    (hget : env.getOk = true) (hincg : env.incGetOk = true)
    (hset : env.setOk = true) :
    usageGet (handleContentAnalysis config today env s).2 (modelKey m.name today)
      = usageGet s (modelKey m.name today)
        + (if (handleContentAnalysis config today env s).1
              = AnalysisResult.success m.name then 1 else 0)
    ∧ ((handleContentAnalysis config today env s).1
          = AnalysisResult.success m.name
        → usageGet s (modelKey m.name today) < m.daily) := by
  obtain ⟨ak, ao, go, ig, so⟩ := env
  replace hget : go = true := hget
  replace hincg : ig = true := hincg
  replace hset : so = true := hset
  subst hget
  subst hincg
  subst hset
  cases ak with
  | false => simp [handleContentAnalysis]
  | true =>
      rcases hsel : config.find? (fun x => isModelAvailable config x.name s today)
        with _ | sel
      · simp [handleContentAnalysis, getModelUsage, hsel]
      · have hav0 := List.find?_some hsel
        have hav : isModelAvailable config sel.name s today = true := hav0
        cases ao with
        | false => simp [handleContentAnalysis, getModelUsage, hsel]
        | true =>
            by_cases hname : sel.name = m.name
            · rw [hname] at hav
              have hlt : usageGet s (modelKey m.name today) < m.daily := by
                simpa [isModelAvailable, hfind] using hav
              constructor
              · simp [handleContentAnalysis, getModelUsage, hsel, hname,
                  incrementModelUsage, saveModelUsage, usageGet_usageSet_self]
              · intro _
                exact hlt
            · have hkey : modelKey sel.name today ≠ modelKey m.name today := by
                intro hcontra
                exact hname (modelKey_inj_name sel.name m.name today hcontra)
              constructor
              · simp [handleContentAnalysis, getModelUsage, hsel, hname,
                  incrementModelUsage, saveModelUsage,
                  usageGet_usageSet_ne _ _ _ _ hkey]
              · intro hcontra
                have h2 : sel.name = m.name := by
                  simpa [handleContentAnalysis, getModelUsage, hsel] using hcontra
                exact absurd h2 hname

/-- Over a fault-free sequential run the counter of a model m that resolves
to itself by name grows by exactly the number of calls that returned
success for m, and a counter starting at or below the quota stays there. -/
lemma runCalls_key (config : List Model) (today : String) (m : Model)
    (hfind : config.find? (fun x => x.name = m.name) = some m) :
    ∀ (envs : List CallEnv) (s : Usage),
      (∀ e ∈ envs, e.getOk = true ∧ e.incGetOk = true ∧ e.setOk = true) →
      usageGet (runCalls config today envs s).2 (modelKey m.name today)
        = usageGet s (modelKey m.name today)
          + successCountFor m.name (runCalls config today envs s).1
      ∧ (usageGet s (modelKey m.name today) ≤ m.daily
          → usageGet (runCalls config today envs s).2 (modelKey m.name today)
              ≤ m.daily)
  | [], s, _ => by simp [runCalls, successCountFor]
  | e :: rest, s, h => by
      have he := h e (by simp)
      have hstep := handle_step_key config today e s m hfind he.1 he.2.1 he.2.2
      have hrest := runCalls_key config today m hfind rest
        ((handleContentAnalysis config today e s).2)
        (fun e2 he2 => h e2 (List.mem_cons_of_mem e he2))
      refine ⟨?_, ?_⟩
      · simp only [runCalls, successCountFor]
        rw [hrest.1, hstep.1]
        omega
      · intro hle
        have h1 : usageGet ((handleContentAnalysis config today e s).2)
            (modelKey m.name today) ≤ m.daily := by
          by_cases hr : (handleContentAnalysis config today e s).1
              = AnalysisResult.success m.name
          · have hlt := hstep.2 hr
            rw [hstep.1, if_pos hr]
            omega
          · rw [hstep.1, if_neg hr]
            exact hle
        have h2 := hrest.2 h1
        simpa [runCalls] using h2

/-- Claim C2: over any strictly sequential run in which every storage read,
increment and save completes, on a single calendar day, a resource whose
counter for that day starts absent (zero) ends with a counter at most its
daily quota, and at most that many of the calls return success for it. -/
theorem C2_sequential_capacity (config : List Model) (today : String)
    (envs : List CallEnv) (s0 : Usage) (m : Model)
    (hok : ∀ e ∈ envs, e.getOk = true ∧ e.incGetOk = true ∧ e.setOk = true)
    (hfind : config.find? (fun x => x.name = m.name) = some m)
    (h0 : usageGet s0 (modelKey m.name today) = 0) :
    successCountFor m.name (runCalls config today envs s0).1 ≤ m.daily
    ∧ usageGet (runCalls config today envs s0).2 (modelKey m.name today)
        ≤ m.daily := by
  have hkey := runCalls_key config today m hfind envs s0 hok
  have hle : usageGet (runCalls config today envs s0).2 (modelKey m.name today)
      ≤ m.daily := hkey.2 (by omega)
  have hsum := hkey.1
  exact ⟨by omega, hle⟩

/-- Witness for claim C2: three fault-free sequential calls against a
single resource of capacity two yield at most two successes and a final
counter of at most two. -/
theorem C2_sequential_capacity_witness :
    successCountFor "modelA"
        (runCalls [Model.mk "modelA" "Model A" 2 0] "Tue"
          [CallEnv.mk true true true true true, CallEnv.mk true true true true true,
           CallEnv.mk true true true true true] []).1 ≤ 2
    ∧ usageGet
        (runCalls [Model.mk "modelA" "Model A" 2 0] "Tue"
          [CallEnv.mk true true true true true, CallEnv.mk true true true true true,
           CallEnv.mk true true true true true] []).2
        (modelKey "modelA" "Tue") ≤ 2 :=
  C2_sequential_capacity [Model.mk "modelA" "Model A" 2 0] "Tue"
    [CallEnv.mk true true true true true, CallEnv.mk true true true true true,
     CallEnv.mk true true true true true] [] (Model.mk "modelA" "Model A" 2 0)
    (by decide) (by decide) (by decide)

/-- Claim C4: reservation attempts follow the fixed configuration order;
with the first resource out of capacity for the day and the second with
room, the call grants the second resource and never the first. -/
theorem C4_priority_order (A B : Model) (rest : List Model) (today : String)
    (env : CallEnv) (u : Usage)
    (hk : env.apiKeyOk = true) (hapi : env.apiOk = true) (hget : env.getOk = true)
    (hne : A.name ≠ B.name)
    (hA : A.daily ≤ usageGet u (modelKey A.name today))
    (hB : usageGet u (modelKey B.name today) < B.daily) :
    (handleContentAnalysis (A :: B :: rest) today env u).1
        = AnalysisResult.success B.name
    ∧ (handleContentAnalysis (A :: B :: rest) today env u).1
        ≠ AnalysisResult.success A.name := by
  have hAnot : ¬ usageGet u (modelKey A.name today) < A.daily := by omega
  have hAav : isModelAvailable (A :: B :: rest) A.name u today = false := by
    simp [isModelAvailable, find?_name_head, hAnot]
  have hBfind : (A :: B :: rest).find? (fun x => x.name = B.name) = some B := by
    simp [List.find?, hne]
  have hBav : isModelAvailable (A :: B :: rest) B.name u today = true := by
    simp [isModelAvailable, hBfind, hB]
  have hsel : (A :: B :: rest).find? (fun x =>
      isModelAvailable (A :: B :: rest) x.name u today) = some B := by
    simp [List.find?, hAav, hBav]
  have hr : (handleContentAnalysis (A :: B :: rest) today env u).1
      = AnalysisResult.success B.name := by
    simp [handleContentAnalysis, hk, hapi, hget, getModelUsage, hsel]
  refine ⟨hr, ?_⟩
  rw [hr]
  intro hcontra
  have hBA : B.name = A.name := by
    injection hcontra
  exact hne hBA.symm

/-- Witness for claim C4: with modelA at its capacity of one for the day
and modelB below its capacity of two, the call grants modelB. -/
theorem C4_priority_order_witness :
    (handleContentAnalysis
        [Model.mk "modelA" "Model A" 1 0, Model.mk "modelB" "Model B" 2 0]
        "Tue" (CallEnv.mk true true true true true)
        [(modelKey "modelA" "Tue", 1)]).1
      = AnalysisResult.success "modelB"
    ∧ (handleContentAnalysis
        [Model.mk "modelA" "Model A" 1 0, Model.mk "modelB" "Model B" 2 0]
        "Tue" (CallEnv.mk true true true true true)
        [(modelKey "modelA" "Tue", 1)]).1
      ≠ AnalysisResult.success "modelA" :=
  C4_priority_order (Model.mk "modelA" "Model A" 1 0)
    (Model.mk "modelB" "Model B" 2 0) [] "Tue"
    (CallEnv.mk true true true true true) [(modelKey "modelA" "Tue", 1)]
    (by decide) (by decide) (by decide) (by decide) (by decide) (by decide)

/-- Claim C5: with a single resource of daily capacity one and an empty
usage record, the first call succeeds naming that resource and a second
call the same day returns the exhausted outcome. -/
theorem C5_single_resource_exhaustion (m : Model) (today : String)
    (e1 e2 : CallEnv)
    (hd : m.daily = 1)
    (h1k : e1.apiKeyOk = true) (h1a : e1.apiOk = true) (h1g : e1.getOk = true)
    (h1ig : e1.incGetOk = true) (h1s : e1.setOk = true)
    (h2k : e2.apiKeyOk = true) (h2g : e2.getOk = true) :
    (handleContentAnalysis [m] today e1 []).1 = AnalysisResult.success m.name
    ∧ (handleContentAnalysis [m] today e2
        (handleContentAnalysis [m] today e1 []).2).1
      = AnalysisResult.exhausted := by
  have h0 : usageGet [] (modelKey m.name today) < m.daily := by
    rw [hd]
    simp [usageGet]
  have hsel1 := find?_avail_head m [] [] today h0
  have hr1 : (handleContentAnalysis [m] today e1 []).1
      = AnalysisResult.success m.name := by
    simp [handleContentAnalysis, h1k, h1a, h1g, getModelUsage, hsel1]
  have hstore : (handleContentAnalysis [m] today e1 []).2
      = [(modelKey m.name today, 1)] := by
    simp [handleContentAnalysis, h1k, h1a, h1g, getModelUsage, hsel1,
      incrementModelUsage, saveModelUsage, h1ig, h1s, usageSet, usageGet]
  have hnav : isModelAvailable [m] m.name
      [(modelKey m.name today, 1)] today = false := by
    simp [isModelAvailable, find?_name_head, usageGet, hd]
  have hsel2 : ([m] : List Model).find? (fun x =>
      isModelAvailable [m] x.name [(modelKey m.name today, 1)] today) = none := by
    simp [List.find?, hnav]
  refine ⟨hr1, ?_⟩
  rw [hstore]
  simp [handleContentAnalysis, h2k, h2g, getModelUsage, hsel2]

/-- Witness for claim C5: two fault-free calls against one resource of
capacity one give a success and then the exhausted outcome. -/
theorem C5_single_resource_exhaustion_witness :
    (handleContentAnalysis [Model.mk "modelA" "Model A" 1 0] "Tue"
        (CallEnv.mk true true true true true) []).1
      = AnalysisResult.success "modelA"
    ∧ (handleContentAnalysis [Model.mk "modelA" "Model A" 1 0] "Tue"
        (CallEnv.mk true true true true true)
        (handleContentAnalysis [Model.mk "modelA" "Model A" 1 0] "Tue"
          (CallEnv.mk true true true true true) []).2).1
      = AnalysisResult.exhausted :=
  C5_single_resource_exhaustion (Model.mk "modelA" "Model A" 1 0) "Tue"
    (CallEnv.mk true true true true true) (CallEnv.mk true true true true true)
    (by decide) (by decide) (by decide) (by decide) (by decide) (by decide)
    (by decide) (by decide)

/-- Claim C6: a resource at capacity for the current day is available again
on the following day without any reset logic, because the key for the new
day has no entry and so reads as zero; a call attributed to the new day
succeeds for that resource (stated with the resource first in priority). -/
theorem C6_day_rollover (m : Model) (rest : List Model) (u : Usage)
    (today tomorrow : String) (env : CallEnv)
    (hk : env.apiKeyOk = true) (hapi : env.apiOk = true) (hget : env.getOk = true)
    (hpos : 0 < m.daily)
    (hex : usageGet u (modelKey m.name today) = m.daily)
    (hno : usageHasKey u (modelKey m.name tomorrow) = false) :
    isModelAvailable (m :: rest) m.name u tomorrow = true
    ∧ (handleContentAnalysis (m :: rest) tomorrow env u).1
        = AnalysisResult.success m.name := by
  have h0 : usageGet u (modelKey m.name tomorrow) = 0 :=
    usageGet_eq_zero_of_not_hasKey u _ hno
  have hlt : usageGet u (modelKey m.name tomorrow) < m.daily := by omega
  have hav : isModelAvailable (m :: rest) m.name u tomorrow = true := by
    simp [isModelAvailable, find?_name_head, hlt]
  have hsel := find?_avail_head m rest u tomorrow hlt
  exact ⟨hav, by simp [handleContentAnalysis, hk, hapi, hget, getModelUsage, hsel]⟩

/-- Witness for claim C6: a capacity-one resource exhausted on Tue is
granted again by a call on Wed. -/
theorem C6_day_rollover_witness :
    isModelAvailable [Model.mk "modelA" "Model A" 1 0] "modelA"
        [(modelKey "modelA" "Tue", 1)] "Wed" = true
    ∧ (handleContentAnalysis [Model.mk "modelA" "Model A" 1 0] "Wed"
        (CallEnv.mk true true true true true)
        [(modelKey "modelA" "Tue", 1)]).1
      = AnalysisResult.success "modelA" :=
  C6_day_rollover (Model.mk "modelA" "Model A" 1 0) [] 
    [(modelKey "modelA" "Tue", 1)] "Tue" "Wed"
    (CallEnv.mk true true true true true)
    (by decide) (by decide) (by decide) (by decide) (by decide) (by decide)

/-- Claim C9: when the storage get fails, the usage record is read as empty,
so a resource appears fully available and a call can grant it even though
the persisted counter for the day is already at capacity. -/
theorem C9_get_failure_overgrant (m : Model) (rest : List Model) (u : Usage)
    (today : String) (env : CallEnv)
    (hk : env.apiKeyOk = true) (hapi : env.apiOk = true) (hget : env.getOk = false)
    (hpos : 0 < m.daily)
    (hatcap : m.daily ≤ usageGet u (modelKey m.name today)) :
    getModelUsage u env.getOk = []
    ∧ isModelAvailable (m :: rest) m.name (getModelUsage u env.getOk) today = true
    ∧ (handleContentAnalysis (m :: rest) today env u).1
        = AnalysisResult.success m.name := by
  have hempty : getModelUsage u env.getOk = [] := by
    simp [getModelUsage, hget]
  have hlt : usageGet ([] : Usage) (modelKey m.name today) < m.daily := by
    simpa [usageGet] using hpos
  have hsel := find?_avail_head m rest [] today hlt
  refine ⟨hempty, ?_, ?_⟩
  · rw [hempty]
    simp [isModelAvailable, find?_name_head, hlt]
  · simp [handleContentAnalysis, hk, hapi, hget, getModelUsage, hsel]

/-- Witness for claim C9: with the persisted counter of modelA at its
capacity of one for the day, a call whose storage get fails still grants
modelA. -/
theorem C9_get_failure_overgrant_witness :
    getModelUsage [(modelKey "modelA" "Tue", 1)] false = []
    ∧ isModelAvailable [Model.mk "modelA" "Model A" 1 0] "modelA"
        (getModelUsage [(modelKey "modelA" "Tue", 1)] false) "Tue" = true
    ∧ (handleContentAnalysis [Model.mk "modelA" "Model A" 1 0] "Tue"
        (CallEnv.mk true true false true true)
        [(modelKey "modelA" "Tue", 1)]).1
      = AnalysisResult.success "modelA" :=
  C9_get_failure_overgrant (Model.mk "modelA" "Model A" 1 0) []
    [(modelKey "modelA" "Tue", 1)] "Tue" (CallEnv.mk true true false true true)
    (by decide) (by decide) (by decide) (by decide) (by decide)

/-- A successful storage read returns the persisted record. -/
lemma getModelUsage_true (s : Usage) : getModelUsage s true = s := rfl

/-- A successful save persists the new record. -/
lemma saveModelUsage_true (s u : Usage) : saveModelUsage s u true = u := rfl

/-- A failed save leaves the persisted record unchanged. -/
lemma saveModelUsage_false (s u : Usage) : saveModelUsage s u false = s := rfl

/-- Claim C3 counterexample: with the store set operation failing, the call
still returns success and the persisted record is unchanged: the code
swallows the persistence failure instead of reporting it, refuting the
claim that a reservation attempt with a failing set never succeeds. -/
theorem C3_counterexample :
    (handleContentAnalysis [Model.mk "modelA" "Model A" 1 0] "Tue"
        (CallEnv.mk true true true true false) []).1
      = AnalysisResult.success "modelA"
    ∧ (handleContentAnalysis [Model.mk "modelA" "Model A" 1 0] "Tue"
        (CallEnv.mk true true true true false) []).2 = [] := by
  decide

/-- Claim C3 as amended: when the store set fails during a reservation
attempt the failure is silently swallowed: the call still returns success
for the selected resource, the persisted record is unchanged so a
subsequent usage read reflects the pre-attempt count, and a later
fault-free attempt can still succeed. -/
theorem C3_swallowed_set_failure (m : Model) (rest : List Model)
    (today : String) (u : Usage) (e1 e2 : CallEnv)
    (h1k : e1.apiKeyOk = true) (h1a : e1.apiOk = true) (h1g : e1.getOk = true)
    (h1s : e1.setOk = false)
    (hroom : usageGet u (modelKey m.name today) < m.daily)
    (h2k : e2.apiKeyOk = true) (h2a : e2.apiOk = true) (h2g : e2.getOk = true) :
    (handleContentAnalysis (m :: rest) today e1 u).1
        = AnalysisResult.success m.name
    ∧ (handleContentAnalysis (m :: rest) today e1 u).2 = u
    ∧ usageGet (getModelUsage (handleContentAnalysis (m :: rest) today e1 u).2 true)
        (modelKey m.name today) = usageGet u (modelKey m.name today)
    ∧ (handleContentAnalysis (m :: rest) today e2
        (handleContentAnalysis (m :: rest) today e1 u).2).1
      = AnalysisResult.success m.name := by
  have hsel := find?_avail_head m rest u today hroom
  have hr1 : (handleContentAnalysis (m :: rest) today e1 u).1
      = AnalysisResult.success m.name := by
    simp [handleContentAnalysis, h1k, h1a, h1g, getModelUsage, hsel]
  have hst : (handleContentAnalysis (m :: rest) today e1 u).2 = u := by
    simp [handleContentAnalysis, h1k, h1a, h1g, getModelUsage, hsel,
      incrementModelUsage, saveModelUsage, h1s]
  refine ⟨hr1, hst, ?_, ?_⟩
  · rw [hst, getModelUsage_true]
  · rw [hst]
    simp [handleContentAnalysis, h2k, h2a, h2g, getModelUsage, hsel]

/-- Witness for the amended claim C3: a call with a failing save against a
fresh capacity-one resource reports success, leaves the record empty, and a
later fault-free call succeeds again. -/
theorem C3_swallowed_set_failure_witness :
    (handleContentAnalysis [Model.mk "modelA" "Model A" 1 0] "Tue"
        (CallEnv.mk true true true true false) []).1
      = AnalysisResult.success "modelA"
    ∧ (handleContentAnalysis [Model.mk "modelA" "Model A" 1 0] "Tue"
        (CallEnv.mk true true true true false) []).2 = []
    ∧ usageGet (getModelUsage (handleContentAnalysis
        [Model.mk "modelA" "Model A" 1 0] "Tue"
        (CallEnv.mk true true true true false) []).2 true)
        (modelKey "modelA" "Tue")
      = usageGet [] (modelKey "modelA" "Tue")
    ∧ (handleContentAnalysis [Model.mk "modelA" "Model A" 1 0] "Tue"
        (CallEnv.mk true true true true true)
        (handleContentAnalysis [Model.mk "modelA" "Model A" 1 0] "Tue"
          (CallEnv.mk true true true true false) []).2).1
      = AnalysisResult.success "modelA" :=
  C3_swallowed_set_failure (Model.mk "modelA" "Model A" 1 0) [] "Tue" []
    (CallEnv.mk true true true true false) (CallEnv.mk true true true true true)
    (by decide) (by decide) (by decide) (by decide) (by decide) (by decide)
    (by decide) (by decide)

/-- Change characterization for one call whose increment-side storage read
succeeds: every counter is unchanged, except that a success for name n may
raise the counter of the n-day key by one. -/
lemma handle_change (config : List Model) (today : String) (env : CallEnv)
    (s : Usage) (k : String) (hincg : env.incGetOk = true) :
    usageGet (handleContentAnalysis config today env s).2 k = usageGet s k
    ∨ (∃ n, (handleContentAnalysis config today env s).1
          = AnalysisResult.success n
        ∧ k = modelKey n today
        ∧ usageGet (handleContentAnalysis config today env s).2 k
            = usageGet s k + 1) := by
  obtain ⟨ak, ao, go, ig, so⟩ := env
  replace hincg : ig = true := hincg
  subst hincg
  cases ak with
  | false => left; simp [handleContentAnalysis]
  | true =>
      rcases hsel : config.find? (fun x =>
          isModelAvailable config x.name (getModelUsage s go) today) with _ | sel
      · left
        simp [handleContentAnalysis, hsel]
      · cases ao with
        | false =>
            left
            simp [handleContentAnalysis, hsel]
        | true =>
            cases so with
            | false =>
                left
                simp [handleContentAnalysis, hsel, incrementModelUsage,
                  saveModelUsage_false]
            | true =>
                by_cases hk2 : k = modelKey sel.name today
                · right
                  refine ⟨sel.name, ?_, hk2, ?_⟩
                  · simp [handleContentAnalysis, hsel]
                  · simp [handleContentAnalysis, hsel, incrementModelUsage,
                      getModelUsage_true, saveModelUsage_true, hk2,
                      usageGet_usageSet_self]
                · left
                  simp [handleContentAnalysis, hsel, incrementModelUsage,
                    getModelUsage_true, saveModelUsage_true,
                    usageGet_usageSet_ne _ _ _ _ (fun h => hk2 h.symm)]

/-- One call never lowers any counter when its increment-side read
succeeds. -/
lemma handle_mono (config : List Model) (today : String) (env : CallEnv)
    (s : Usage) (k : String) (hincg : env.incGetOk = true) :
    usageGet s k ≤ usageGet (handleContentAnalysis config today env s).2 k := by
  rcases handle_change config today env s k hincg with h | ⟨n, _, _, h⟩ <;> omega

/-- Counters are non-decreasing across a sequential run whose calls all
have a succeeding increment-side read. -/
lemma runCalls_mono (config : List Model) (today : String) (k : String) :
    ∀ (envs : List CallEnv) (s : Usage), (∀ e ∈ envs, e.incGetOk = true) →
      usageGet s k ≤ usageGet (runCalls config today envs s).2 k
  | [], s, _ => by simp [runCalls]
  | e :: rest, s, h => by
      have h1 := handle_mono config today e s k (h e (by simp))
      have h2 := runCalls_mono config today k rest
        ((handleContentAnalysis config today e s).2)
        (fun e2 he2 => h e2 (List.mem_cons_of_mem e he2))
      simp only [runCalls]
      omega

/-- Claim C7 counterexample: an increment whose storage read fails rebuilds
the record from empty, so the stored counter for the gemini-2.5-pro day key
drops from 50 to 1: a component operation decreased a stored count. -/
theorem C7_counterexample :
    usageGet [(modelKey "gemini-2.5-pro" "Tue", 50)]
        (modelKey "gemini-2.5-pro" "Tue") = 50
    ∧ usageGet (incrementModelUsage [(modelKey "gemini-2.5-pro" "Tue", 50)]
        "gemini-2.5-pro" "Tue" false true)
        (modelKey "gemini-2.5-pro" "Tue") = 1 := by
  decide

/-- Claim C7 as amended: provided the storage read inside the increment
succeeds, no stored counter ever decreases: a single call leaves every
counter unchanged except for a plus-one at the key of the granted name and
day on a successful reservation, and counters are non-decreasing across
any sequential run of such calls. -/
theorem C7_count_monotone (config : List Model) (today : String)
    (env : CallEnv) (s : Usage) (k : String) (envs : List CallEnv) (s0 : Usage)
    (hincg : env.incGetOk = true) (hseq : ∀ e ∈ envs, e.incGetOk = true) :
    usageGet s k ≤ usageGet (handleContentAnalysis config today env s).2 k
    ∧ (usageGet (handleContentAnalysis config today env s).2 k = usageGet s k
       ∨ ∃ n, (handleContentAnalysis config today env s).1
            = AnalysisResult.success n
          ∧ k = modelKey n today
          ∧ usageGet (handleContentAnalysis config today env s).2 k
              = usageGet s k + 1)
    ∧ usageGet s0 k ≤ usageGet (runCalls config today envs s0).2 k :=
  ⟨handle_mono config today env s k hincg,
   handle_change config today env s k hincg,
   runCalls_mono config today k envs s0 hseq⟩

/-- Witness for the amended claim C7: one fault-free call against the
repository configuration and a two-call sequential run never lower the
counter of the gemini-2.5-pro day key. -/
theorem C7_count_monotone_witness :
    usageGet [] (modelKey "gemini-2.5-pro" "Tue")
      ≤ usageGet (handleContentAnalysis MODEL_CONFIG "Tue"
          (CallEnv.mk true true true true true) []).2
          (modelKey "gemini-2.5-pro" "Tue")
    ∧ (usageGet (handleContentAnalysis MODEL_CONFIG "Tue"
          (CallEnv.mk true true true true true) []).2
          (modelKey "gemini-2.5-pro" "Tue")
        = usageGet [] (modelKey "gemini-2.5-pro" "Tue")
       ∨ ∃ n, (handleContentAnalysis MODEL_CONFIG "Tue"
            (CallEnv.mk true true true true true) []).1
            = AnalysisResult.success n
          ∧ modelKey "gemini-2.5-pro" "Tue" = modelKey n "Tue"
          ∧ usageGet (handleContentAnalysis MODEL_CONFIG "Tue"
              (CallEnv.mk true true true true true) []).2
              (modelKey "gemini-2.5-pro" "Tue")
            = usageGet [] (modelKey "gemini-2.5-pro" "Tue") + 1)
    ∧ usageGet [] (modelKey "gemini-2.5-pro" "Tue")
      ≤ usageGet (runCalls MODEL_CONFIG "Tue"
          [CallEnv.mk true true true true true,
           CallEnv.mk true true true true true] []).2
          (modelKey "gemini-2.5-pro" "Tue") :=
  C7_count_monotone MODEL_CONFIG "Tue" (CallEnv.mk true true true true true)
    [] (modelKey "gemini-2.5-pro" "Tue")
    [CallEnv.mk true true true true true, CallEnv.mk true true true true true]
    [] (by decide) (by decide)

/-- Claim C10 counterexample: with the save failing, the call reports
success for modelA yet no key of the record changes: in particular the
counter of the granted key stays zero instead of rising by one. -/
theorem C10_counterexample :
    (handleContentAnalysis [Model.mk "modelA" "Model A" 1 0] "Tue"
        (CallEnv.mk true true true true false)
        [(modelKey "modelB" "Tue", 3)]).1 = AnalysisResult.success "modelA"
    ∧ usageGet (handleContentAnalysis [Model.mk "modelA" "Model A" 1 0] "Tue"
        (CallEnv.mk true true true true false)
        [(modelKey "modelB" "Tue", 3)]).2 (modelKey "modelA" "Tue") = 0 := by
  decide

/-- Claim C10 as amended: a successful reservation whose increment-side
storage read and save both succeed modifies exactly the key of the granted
resource and day, raising its counter by one, and leaves the counter under
every other key unchanged. -/
theorem C10_success_frame (config : List Model) (today : String)
    (env : CallEnv) (s : Usage) (n : String)
    (hincg : env.incGetOk = true) (hset : env.setOk = true)
    (hsucc : (handleContentAnalysis config today env s).1
        = AnalysisResult.success n) :
    usageGet (handleContentAnalysis config today env s).2 (modelKey n today)
      = usageGet s (modelKey n today) + 1
    ∧ ∀ k, k ≠ modelKey n today →
        usageGet (handleContentAnalysis config today env s).2 k
          = usageGet s k := by
  obtain ⟨sel, hsel, hname, hk, hapi, hst⟩ :=
    handle_success_inv config today env s n hsucc
  rw [hst, hincg, hset]
  constructor
  · simp [incrementModelUsage, getModelUsage_true, saveModelUsage_true,
      usageGet_usageSet_self]
  · intro k hkne
    simp [incrementModelUsage, getModelUsage_true, saveModelUsage_true,
      usageGet_usageSet_ne _ _ _ _ (fun h => hkne h.symm)]

/-- Witness for the amended claim C10: a fault-free successful call on the
repository configuration raises the gemini-2.5-pro day counter by one and
leaves every other key untouched. -/
theorem C10_success_frame_witness :
    usageGet (handleContentAnalysis MODEL_CONFIG "Tue"
        (CallEnv.mk true true true true true)
        [(modelKey "modelB" "Tue", 3)]).2 (modelKey "gemini-2.5-pro" "Tue")
      = usageGet [(modelKey "modelB" "Tue", 3)]
          (modelKey "gemini-2.5-pro" "Tue") + 1
    ∧ ∀ k, k ≠ modelKey "gemini-2.5-pro" "Tue" →
        usageGet (handleContentAnalysis MODEL_CONFIG "Tue"
            (CallEnv.mk true true true true true)
            [(modelKey "modelB" "Tue", 3)]).2 k
          = usageGet [(modelKey "modelB" "Tue", 3)] k :=
  C10_success_frame MODEL_CONFIG "Tue" (CallEnv.mk true true true true true)
    [(modelKey "modelB" "Tue", 3)] "gemini-2.5-pro"
    (by decide) (by decide) (by decide)

/-- The construction-time configuration error from spec section 7. -/
inductive ConfigurationError where
  | emptyResourceList
  | invalidCapacity (name : String)
deriving DecidableEq

/-- Modelled from the spec: the repository has no construction step for the
quota mechanism (MODEL_CONFIG in background.js is a hard-coded literal and
no validation code exists anywhere in the sources), so the constructor
required by spec section 7 is modelled from its words: construction fails
fast with a ConfigurationError on an empty resource list or on an entry
whose daily capacity is zero (not a positive integer), and otherwise
yields the configuration unchanged. -/
def mkQuotaReservoir (config : List Model) :
    Except ConfigurationError (List Model) :=
  if config.isEmpty then Except.error ConfigurationError.emptyResourceList
  else
    match config.find? (fun m => m.daily = 0) with
    | some m => Except.error (ConfigurationError.invalidCapacity m.name)
    | none => Except.ok config

/-- Claim C8, settled against the spec-modelled constructor: construction
fails exactly when the resource list is empty or contains an entry with a
zero daily capacity; every constructed reservoir therefore has a nonempty
resource list with only positive capacities, and the repository
configuration MODEL_CONFIG passes validation. -/
theorem C8_construction_validation (config : List Model) :
    ((∃ e, mkQuotaReservoir config = Except.error e)
        ↔ (config = [] ∨ ∃ m ∈ config, m.daily = 0))
    ∧ (∀ c, mkQuotaReservoir config = Except.ok c
        → c = config ∧ c ≠ [] ∧ ∀ m ∈ c, 0 < m.daily)
    ∧ mkQuotaReservoir MODEL_CONFIG = Except.ok MODEL_CONFIG := by
  refine ⟨?_, ?_, rfl⟩
  · by_cases hemp : config.isEmpty
    · have hnil : config = [] := List.isEmpty_iff.mp hemp
      constructor
      · intro _
        exact Or.inl hnil
      · intro _
        exact ⟨ConfigurationError.emptyResourceList,
          by simp [mkQuotaReservoir, hemp]⟩
    · have hnil : config ≠ [] := by
        intro hcon
        exact hemp (by simp [hcon])
      rcases hfind : config.find? (fun m => m.daily = 0) with _ | m
      · constructor
        · intro ⟨e, he⟩
          simp [mkQuotaReservoir, hemp, hfind] at he
        · intro hor
          rcases hor with hc | ⟨m, hm, hm0⟩
          · exact absurd hc hnil
          · have hnone := List.find?_eq_none.mp hfind m hm
            simp [hm0] at hnone
      · constructor
        · intro _
          have hp := List.find?_some hfind
          have hmem := List.mem_of_find?_eq_some hfind
          refine Or.inr ⟨m, hmem, ?_⟩
          simpa using hp
        · intro _
          exact ⟨ConfigurationError.invalidCapacity m.name,
            by simp [mkQuotaReservoir, hemp, hfind]⟩
  · intro c hc
    by_cases hemp : config.isEmpty
    · simp [mkQuotaReservoir, hemp] at hc
    · rcases hfind : config.find? (fun m => m.daily = 0) with _ | m
      · have hceq : c = config := by
          simp [mkQuotaReservoir, hemp, hfind] at hc
          exact hc.symm
        subst hceq
        refine ⟨rfl, ?_, ?_⟩
        · intro hcon
          exact hemp (by simp [hcon])
        · intro m hm
          have hnone := List.find?_eq_none.mp hfind m hm
          simp at hnone
          omega
      · simp [mkQuotaReservoir, hemp, hfind] at hc

/-- The visible phases of one in-flight handleContentAnalysis call in the
interleaving model.  The await points of the JavaScript (the storage reads
and the network call) are where concurrent calls interleave: the
availability check reads the shared store and selects a model, and the
increment afterwards re-reads, bumps and saves the shared store. -/
inductive Phase where
  | ready
  | selected (modelName : String)
  | finished (result : AnalysisResult)
deriving DecidableEq

/-- A scheduler step: run the availability-check half or the increment
half of the numbered call. -/
inductive SchedStep where
  | check (tid : Nat)
  | increment (tid : Nat)
deriving DecidableEq

/-- The availability-check half of a call, background.js lines 104 to 117:
read the store and select the first available model, or finish exhausted
when none is available. -/
def checkStep (config : List Model) (today : String) (store : Usage)
    (ph : Phase) : Phase :=
  match ph with
  | Phase.ready =>
      match config.find? (fun m =>
          isModelAvailable config m.name (getModelUsage store true) today) with
      | none => Phase.finished AnalysisResult.exhausted
      | some m => Phase.selected m.name
  | other => other

/-- The increment half of a call, background.js lines 202 to 210: after the
API call returns, run incrementModelUsage on the shared store and finish
with success for the model selected earlier. -/
def incStep (today : String) (store : Usage) (ph : Phase) : Usage × Phase :=
  match ph with
  | Phase.selected n =>
      (incrementModelUsage store n today true true,
       Phase.finished (AnalysisResult.success n))
  | other => (store, other)

/-- Run a schedule of interleaved steps over the shared store and the
per-call phases. -/
def runSched (config : List Model) (today : String) :
    List SchedStep → Usage → List Phase → Usage × List Phase
  | [], store, phs => (store, phs)
  | SchedStep.check t :: rest, store, phs =>
      runSched config today rest store
        (phs.set t (checkStep config today store (phs.getD t Phase.ready)))
  | SchedStep.increment t :: rest, store, phs =>
      runSched config today rest (incStep today store (phs.getD t Phase.ready)).1
        (phs.set t (incStep today store (phs.getD t Phase.ready)).2)

/-- The number of calls finished with success for the given model name. -/
def phaseSuccessCount (n : String) : List Phase → Nat
  | [] => 0
  | Phase.finished (AnalysisResult.success m) :: rest =>
      (if m = n then 1 else 0) + phaseSuccessCount n rest
  | _ :: rest => phaseSuccessCount n rest

/-- The interleaving exhibiting the race the repository documents as its
Bug 3: all fifty-one concurrent calls pass their availability check before
any of them increments. -/
def raceSchedule : List SchedStep :=
  (List.range 51).map SchedStep.check ++ (List.range 51).map SchedStep.increment

/-- Claim C1 evaluated at the failing input: fifty-one concurrent calls
against the repository configuration, interleaved so that every
availability check runs before any increment, all finish with success on
gemini-2.5-pro and the stored counter for its day key reaches 51, although
the configured daily capacity of gemini-2.5-pro is 50. -/
theorem C1_race_evaluation :
    phaseSuccessCount "gemini-2.5-pro"
        (runSched MODEL_CONFIG "Tue" raceSchedule []
          (List.replicate 51 Phase.ready)).2 = 51
    ∧ usageGet (runSched MODEL_CONFIG "Tue" raceSchedule []
          (List.replicate 51 Phase.ready)).1
        (modelKey "gemini-2.5-pro" "Tue") = 51
    ∧ (MODEL_CONFIG.find? (fun m => m.name = "gemini-2.5-pro")).map Model.daily
        = some 50 := by
  decide
